import Mathlib

/-!
# Verification of the tallybot core (score store, group directory, query engine)

This file gives a shallow embedding of the SQLite-backed tally engine of
`tallybot.go` and proves the specification claims about it.

The database state is modelled exactly after the three tables created by
`initializeDatabase`:
* `tallies (item TEXT PRIMARY KEY, score INTEGER)` — an association list in
  insertion order (SQLite returns rows of these rowid tables in insertion
  order, and nothing is ever deleted from `tallies` or `aliases`);
* `aliases (item TEXT PRIMARY KEY, group_id INTEGER)` — likewise;
* `groups (group_id INTEGER PRIMARY KEY AUTOINCREMENT)` — the list of live
  group ids, together with the `AUTOINCREMENT` counter `nextGroup` (SQLite
  AUTOINCREMENT hands out strictly increasing ids starting at 1 and never
  reuses an id after a `DELETE`, which is exactly a monotone counter).

Each Go function on the database becomes a Lean function on `DB`.
-/

set_option maxHeartbeats 1000000

/-- The persistent state: the three tables plus the AUTOINCREMENT counter of
the `groups` table. -/
structure DB where
  tallies : List (String × Int)
  aliases : List (String × Nat)
  groups : List Nat
  nextGroup : Nat
deriving DecidableEq

/-- The state right after `initializeDatabase` on a fresh file: all tables
empty, first AUTOINCREMENT id is 1. -/
def DB.empty : DB := ⟨[], [], [], 1⟩

/-- `SELECT COUNT(*) FROM tallies WHERE item = ?` is nonzero, i.e. the item
has a row in the score store. -/
def itemExists (db : DB) (item : String) : Bool :=
  (db.tallies.lookup item).isSome

/-- `getScore`: `SELECT score FROM tallies WHERE item = ?`, returning 0 when
the row is missing (the `Scan` error path). -/
def getScore (db : DB) (item : String) : Int :=
  (db.tallies.lookup item).getD 0

/-- `updateScore`: `UPDATE tallies SET score = ? WHERE item = ?`. -/
def updateScore (db : DB) (item : String) (score : Int) : DB :=
  { db with tallies := db.tallies.map fun p => if p.1 = item then (p.1, score) else p }

/-- `getGroupID`: `SELECT group_id FROM aliases WHERE item = ?`, returning 0
when the row is missing. -/
def getGroupID (db : DB) (item : String) : Nat :=
  (db.aliases.lookup item).getD 0

/-- `ensureItemExists`: if the item has no `tallies` row, insert it with
score 0, insert a fresh row into `groups` (allocating the next AUTOINCREMENT
id) and record the membership in `aliases`. -/
def ensureItemExists (db : DB) (item : String) : DB :=
  if itemExists db item then db
  else
    { tallies := db.tallies ++ [(item, 0)]
      aliases := db.aliases ++ [(item, db.nextGroup)]
      groups := db.groups ++ [db.nextGroup]
      nextGroup := db.nextGroup + 1 }

/-- `linkItems`: ensure both items exist, then if their groups differ,
`UPDATE aliases SET group_id = g1 WHERE group_id = g2` and
`DELETE FROM groups WHERE group_id = g2`. -/
def linkItems (db : DB) (item1 item2 : String) : DB :=
  let dbe := ensureItemExists (ensureItemExists db item1) item2
  let g1 := getGroupID dbe item1
  let g2 := getGroupID dbe item2
  if g1 ≠ g2 then
    { dbe with
        aliases := dbe.aliases.map fun p => if p.2 = g2 then (p.1, g1) else p
        groups := dbe.groups.filter fun g => g ≠ g2 }
  else dbe

/-- `unlinkItems`: ensure both items exist, then if their groups coincide,
insert a fresh `groups` row (allocating `nextGroup`) and
`UPDATE aliases SET group_id = new WHERE item = item2`. -/
def unlinkItems (db : DB) (item1 item2 : String) : DB :=
  let dbe := ensureItemExists (ensureItemExists db item1) item2
  let g1 := getGroupID dbe item1
  let g2 := getGroupID dbe item2
  if g1 = g2 then
    { dbe with
        aliases := dbe.aliases.map fun p => if p.1 = item2 then (p.1, dbe.nextGroup) else p
        groups := dbe.groups ++ [dbe.nextGroup]
        nextGroup := dbe.nextGroup + 1 }
  else dbe

/-- `getTotalScore`: if the item has no group (`group_id` read as 0), fall
back to `getScore`; otherwise
`SELECT SUM(score) FROM tallies JOIN aliases USING(item) WHERE group_id = ?`
(the join of a `tallies` row with the unique `aliases` row of the same item). -/
def getTotalScore (db : DB) (item : String) : Int :=
  let g := getGroupID db item
  if g = 0 then getScore db item
  else ((db.tallies.filter fun p => db.aliases.lookup p.1 == some g).map Prod.snd).sum

/-- `getLinkedItems`: if the item has no group, the empty list; otherwise
`SELECT item FROM aliases WHERE group_id = ? AND item != ?` in storage order. -/
def getLinkedItems (db : DB) (item : String) : List String :=
  let g := getGroupID db item
  if g = 0 then []
  else (db.aliases.filter fun p => p.2 == g && p.1 != item).map Prod.fst

/-- Spec-side definition ("the sum of the scores of every item currently
mapped to the same group id"): sum `getScore` over the members of group `g`
as recorded in `aliases`. Compared against `getTotalScore` in claim C3. -/
def groupScoreSum (db : DB) (g : Nat) : Int :=
  ((db.aliases.filter fun p => p.2 == g).map fun p => getScore db p.1).sum

/-! ## The message handler

`handleMessage` trims the message, lowercases it, and dispatches on the five
regular expressions, in the source's order: `^!help$`, `^!unlink ... $`,
`^!link ... $`, `^!total ... $`, and finally every non-overlapping occurrence
of `([\w.]+)(\+\+|--)` in the trimmed original-case message. The anchored
commands are matched by direct string decomposition below, which coincides
with the regexes because an item token `[\w.]+` is a maximal nonempty run of
word characters or periods, delimited here by spaces or the end of input. -/

/-- A character of the class `[\w.]` (Go `\w` is ASCII `[0-9A-Za-z_]`). -/
def isItemChar (c : Char) : Bool :=
  c.isAlphanum || c == '_' || c == '.'

/-- `strings.TrimSpace`: drop whitespace from both ends. -/
def trimChars (cs : List Char) : List Char :=
  ((cs.dropWhile Char.isWhitespace).reverse.dropWhile Char.isWhitespace).reverse

/-- `strings.ToLower` on the ASCII inputs relevant here. -/
def lowerChars (cs : List Char) : List Char :=
  cs.map Char.toLower

/-- All characters of a nonempty token are item characters. -/
def isItemToken (s : List Char) : Bool :=
  !s.isEmpty && s.all isItemChar

/-- Strip an expected literal from the front of a character list. -/
def dropLiteral : List Char → List Char → Option (List Char)
  | [], cs => some cs
  | _ :: _, [] => none
  | p :: ps, c :: cs => if c = p then dropLiteral ps cs else none

/-- Match `([\w.]+) ([\w.]+)$`: a maximal item token, one space, a second
item token reaching the end of the input. -/
def matchTwoItems (cs : List Char) : Option (String × String) :=
  let t1 := cs.takeWhile isItemChar
  let rest := cs.dropWhile isItemChar
  if t1.isEmpty then none
  else
    match rest with
    | ' ' :: rest2 =>
      let t2 := rest2.takeWhile isItemChar
      let rest3 := rest2.dropWhile isItemChar
      if t2.isEmpty then none
      else if rest3.isEmpty then some (String.mk t1, String.mk t2) else none
    | _ => none

/-- Match `([\w.]+)$`. -/
def matchOneItem (cs : List Char) : Option String :=
  if isItemToken cs then some (String.mk cs) else none

/-- `^!link ([\w.]+) ([\w.]+)$` on the lowercased message. -/
def matchLink (msgLower : List Char) : Option (String × String) :=
  match dropLiteral "!link ".data msgLower with
  | some rest => matchTwoItems rest
  | none => none

/-- `^!unlink ([\w.]+) ([\w.]+)$` on the lowercased message. -/
def matchUnlink (msgLower : List Char) : Option (String × String) :=
  match dropLiteral "!unlink ".data msgLower with
  | some rest => matchTwoItems rest
  | none => none

/-- `^!total ([\w.]+)$` on the lowercased message. -/
def matchTotal (msgLower : List Char) : Option String :=
  match dropLiteral "!total ".data msgLower with
  | some rest => matchOneItem rest
  | none => none

/-- All non-overlapping, leftmost matches of `([\w.]+)(\+\+|--)`, as
`FindAllStringSubmatch` produces them, computed one character per step:
`run` holds the (reversed) current maximal run of item characters, and
`pending` records a single `+` or `-` seen right after a nonempty run
(`some true` for `+`). A match fires when the second operator character
completes the pair; a run not followed by a full operator cannot contain a
later match start, because a match must begin at the start of a maximal run. -/
def scanUpvotes : List Char → List Char → Option Bool → List (String × Bool)
  | [], _, _ => []
  | c :: cs, run, some inc =>
    if (inc && c == '+') || (!inc && c == '-') then
      (String.mk run.reverse, inc) :: scanUpvotes cs [] none
    else if isItemChar c then scanUpvotes cs [c] none
    else scanUpvotes cs [] none
  | c :: cs, run, none =>
    if isItemChar c then scanUpvotes cs (c :: run) none
    else if !run.isEmpty && c == '+' then scanUpvotes cs run (some true)
    else if !run.isEmpty && c == '-' then scanUpvotes cs run (some false)
    else scanUpvotes cs [] none

/-- The static help text sent for `!help`. -/
def helpText : String :=
  "Available commands:\nitem++ or item--: Increment/decrement score for item\n!link item1 item2: Link two items to share scores\n!unlink item1 item2: Unlink two items\n!total item: Show total score for item and all linked items"

/-- The body of the upvote/downvote loop: for each match in order, lowercase
the item, ensure it exists, apply the ±1 delta, and report the new score
together with the linked items (if any). Returns the final state and the
responses in order. -/
def processUpvotes (db : DB) : List (String × Bool) → DB × List String
  | [] => (db, [])
  | (raw, inc) :: rest =>
    let item := String.mk (lowerChars raw.data)
    let db1 := ensureItemExists db item
    let cur := getScore db1 item
    let ns := if inc then cur + 1 else cur - 1
    let db2 := updateScore db1 item ns
    let linked := getLinkedItems db2 item
    let linkedStr :=
      if linked.length > 0 then " (linked with: " ++ String.intercalate ", " linked ++ ")"
      else ""
    let r := item ++ ": [" ++ toString ns ++ "]" ++ linkedStr
    let out := processUpvotes db2 rest
    (out.1, r :: out.2)

/-- `handleMessage` (the message-processing core, after the channel gate):
returns the new state and the list of responses sent, in order. -/
def handleMessage (db : DB) (message : String) : DB × List String :=
  let msg := trimChars message.data
  let msgLower := lowerChars msg
  if msgLower = "!help".data then (db, [helpText])
  else
    match matchUnlink msgLower with
    | some (a, b) => (unlinkItems db a b, ["Unlinked " ++ a ++ " and " ++ b ++ "."])
    | none =>
      match matchLink msgLower with
      | some (a, b) => (linkItems db a b, ["Linked " ++ a ++ " and " ++ b ++ "."])
      | none =>
        match matchTotal msgLower with
        | some item =>
          (db, ["Total score for group including " ++ item ++ ": ["
                ++ toString (getTotalScore db item) ++ "]"])
        | none => processUpvotes db (scanUpvotes msg [] none)

/-- Process a list of inbound messages in order, concatenating responses. -/
def runMessages (db : DB) : List String → DB × List String
  | [] => (db, [])
  | m :: ms =>
    let out := handleMessage db m
    let out2 := runMessages out.1 ms
    (out2.1, out.2 ++ out2.2)

/-- The delta operation as performed by the upvote loop: ensure the item,
read its score, write score ± 1. -/
def applyDelta (db : DB) (item : String) (inc : Bool) : DB :=
  let db1 := ensureItemExists db item
  let cur := getScore db1 item
  updateScore db1 item (if inc then cur + 1 else cur - 1)

/-- The six operations of the tally engine; `total` and `listLinked` are
pure reads. -/
inductive Op where
  | ensure (item : String)
  | delta (item : String) (inc : Bool)
  | link (a b : String)
  | unlink (a b : String)
  | total (item : String)
  | listLinked (item : String)

/-- State effect of one operation. -/
def applyOp (db : DB) : Op → DB
  | .ensure i => ensureItemExists db i
  | .delta i inc => applyDelta db i inc
  | .link a b => linkItems db a b
  | .unlink a b => unlinkItems db a b
  | .total _ => db
  | .listLinked _ => db

/-- Run a sequence of operations. -/
def runOps (db : DB) (ops : List Op) : DB :=
  ops.foldl applyOp db

/-! ## Association-list lemmas -/

theorem lookup_cons_self {β : Type} (k : String) (v : β) (l : List (String × β)) :
    List.lookup k ((k, v) :: l) = some v := by
  simp [List.lookup_cons]

theorem lookup_cons_ne {β : Type} {k a : String} (v : β) (l : List (String × β)) (h : k ≠ a) :
    List.lookup k ((a, v) :: l) = List.lookup k l := by
  simp [List.lookup_cons, beq_false_of_ne h]

theorem lookup_eq_none_iff {β : Type} (l : List (String × β)) (k : String) :
    l.lookup k = none ↔ k ∉ l.map Prod.fst := by
  induction l with
  | nil => simp
  | cons p t ih =>
    obtain ⟨a, w⟩ := p
    by_cases h : k = a
    · subst h
      simp [lookup_cons_self]
    · rw [lookup_cons_ne _ _ h]
      simp [ih, h]

theorem lookup_isSome_iff {β : Type} (l : List (String × β)) (k : String) :
    (l.lookup k).isSome = true ↔ k ∈ l.map Prod.fst := by
  rw [← Decidable.not_not (p := k ∈ l.map Prod.fst), ← lookup_eq_none_iff]
  cases h : l.lookup k <;> simp [h]

theorem lookup_append_of_none {β : Type} {l1 : List (String × β)} (l2 : List (String × β))
    (k : String) (h : l1.lookup k = none) :
    (l1 ++ l2).lookup k = l2.lookup k := by
  induction l1 with
  | nil => rfl
  | cons p t ih =>
    obtain ⟨a, w⟩ := p
    by_cases hk : k = a
    · subst hk
      rw [lookup_cons_self] at h
      exact absurd h (by simp)
    · rw [lookup_cons_ne _ _ hk] at h
      rw [List.cons_append, lookup_cons_ne _ _ hk]
      exact ih h

theorem lookup_append_of_some {β : Type} {l1 : List (String × β)} (l2 : List (String × β))
    {k : String} {v : β} (h : l1.lookup k = some v) :
    (l1 ++ l2).lookup k = some v := by
  induction l1 with
  | nil => simp at h
  | cons p t ih =>
    obtain ⟨a, w⟩ := p
    by_cases hk : k = a
    · subst hk
      rw [lookup_cons_self] at h
      rw [List.cons_append, lookup_cons_self]
      exact h
    · rw [lookup_cons_ne _ _ hk] at h
      rw [List.cons_append, lookup_cons_ne _ _ hk]
      exact ih h

theorem lookup_mem {β : Type} {l : List (String × β)} {k : String} {v : β}
    (h : l.lookup k = some v) : (k, v) ∈ l := by
  induction l with
  | nil => simp at h
  | cons p t ih =>
    obtain ⟨a, w⟩ := p
    by_cases hk : k = a
    · subst hk
      rw [lookup_cons_self] at h
      cases h
      simp
    · rw [lookup_cons_ne _ _ hk] at h
      exact List.mem_cons_of_mem _ (ih h)

theorem lookup_self_of_nodup {β : Type} {l : List (String × β)}
    (hnd : (l.map Prod.fst).Nodup) {p : String × β} (hp : p ∈ l) :
    l.lookup p.1 = some p.2 := by
  induction l with
  | nil => simp at hp
  | cons q t ih =>
    obtain ⟨a, w⟩ := q
    rw [List.map_cons, List.nodup_cons] at hnd
    rcases List.mem_cons.mp hp with h | h
    · subst h
      rw [lookup_cons_self]
    · have hne : p.1 ≠ a := by
        intro he
        exact hnd.1 (List.mem_map.mpr ⟨p, h, he⟩)
      rw [lookup_cons_ne _ _ hne]
      exact ih hnd.2 h

theorem map_fst_keep {β : Type} (l : List (String × β)) (f : String × β → String × β)
    (hf : ∀ p, (f p).1 = p.1) : (l.map f).map Prod.fst = l.map Prod.fst := by
  induction l with
  | nil => rfl
  | cons p t ih => simp [hf p, ih]

theorem lookup_map_repoint (l : List (String × Nat)) (k : String) (g1 g2 : Nat) :
    (l.map fun p => if p.2 = g2 then (p.1, g1) else p).lookup k
      = (l.lookup k).map fun g => if g = g2 then g1 else g := by
  induction l with
  | nil => rfl
  | cons p t ih =>
    obtain ⟨a, w⟩ := p
    by_cases hk : k = a
    · subst hk
      by_cases hv : w = g2 <;>
        simp [hv, lookup_cons_self]
    · by_cases hv : w = g2 <;>
        simpa [hv, lookup_cons_ne _ _ hk] using ih

theorem lookup_map_setkey {β : Type} (l : List (String × β)) (k i : String) (v : β) :
    (l.map fun p => if p.1 = i then (p.1, v) else p).lookup k
      = if k = i then (l.lookup k).map (fun _ => v) else l.lookup k := by
  induction l with
  | nil => simp
  | cons p t ih =>
    obtain ⟨a, w⟩ := p
    simp only [List.map_cons]
    by_cases hp : a = i
    · subst hp
      rw [if_pos rfl]
      by_cases hk : k = a
      · subst hk
        simp [lookup_cons_self]
      · rw [lookup_cons_ne _ _ hk, lookup_cons_ne _ _ hk, ih]
    · simp only [if_neg hp]
      by_cases hk : k = a
      · subst hk
        rw [lookup_cons_self, if_neg hp, lookup_cons_self]
      · rw [lookup_cons_ne _ _ hk, lookup_cons_ne _ _ hk, ih]

/-! ## The reachability invariant

`Invariant` collects what every reachable state satisfies: the `tallies` and
`aliases` tables have the same items in the same insertion order (they are
only ever written together by `ensureItemExists`), item names are unique
(`PRIMARY KEY`), and every assigned group id is at least 1 and below the
AUTOINCREMENT counter. -/

def Invariant (db : DB) : Prop :=
  db.tallies.map Prod.fst = db.aliases.map Prod.fst ∧
  (db.aliases.map Prod.fst).Nodup ∧
  (∀ p ∈ db.aliases, 1 ≤ p.2 ∧ p.2 < db.nextGroup) ∧
  1 ≤ db.nextGroup

instance (db : DB) : Decidable (Invariant db) := by
  unfold Invariant
  infer_instance

theorem Invariant.keys_eq {db : DB} (h : Invariant db) :
    db.tallies.map Prod.fst = db.aliases.map Prod.fst := h.1

theorem Invariant.nodup {db : DB} (h : Invariant db) :
    (db.aliases.map Prod.fst).Nodup := h.2.1

theorem Invariant.bounds {db : DB} (h : Invariant db) :
    ∀ p ∈ db.aliases, 1 ≤ p.2 ∧ p.2 < db.nextGroup := h.2.2.1

theorem Invariant.next_pos {db : DB} (h : Invariant db) : 1 ≤ db.nextGroup := h.2.2.2

theorem itemExists_iff_aliases {db : DB} (h : Invariant db) (x : String) :
    itemExists db x = true ↔ (db.aliases.lookup x).isSome = true := by
  rw [itemExists, lookup_isSome_iff, lookup_isSome_iff, h.keys_eq]

theorem aliases_lookup_of_exists {db : DB} (h : Invariant db) {x : String}
    (hx : itemExists db x = true) :
    db.aliases.lookup x = some (getGroupID db x) ∧
      1 ≤ getGroupID db x ∧ getGroupID db x < db.nextGroup := by
  have hs : (db.aliases.lookup x).isSome = true := (itemExists_iff_aliases h x).mp hx
  obtain ⟨g, hg⟩ := Option.isSome_iff_exists.mp hs
  have hgid : getGroupID db x = g := by rw [getGroupID, hg]; rfl
  have hb := h.bounds _ (lookup_mem hg)
  exact ⟨by rw [hgid, hg], by rw [hgid]; exact hb.1, by rw [hgid]; exact hb.2⟩

theorem getGroupID_eq_zero_iff {db : DB} (h : Invariant db) (x : String) :
    getGroupID db x = 0 ↔ itemExists db x = false := by
  constructor
  · intro hz
    cases hx : itemExists db x
    · rfl
    · have := (aliases_lookup_of_exists h hx).2.1
      omega
  · intro hx
    have : db.tallies.lookup x = none := by
      cases hl : db.tallies.lookup x
      · rfl
      · rw [itemExists, hl] at hx
        simp at hx
    have hal : db.aliases.lookup x = none := by
      rw [lookup_eq_none_iff, ← h.keys_eq, ← lookup_eq_none_iff]
      exact this
    rw [getGroupID, hal]
    rfl

/-! ## `ensureItemExists` -/

theorem ensure_noop {db : DB} {item : String} (h : itemExists db item = true) :
    ensureItemExists db item = db := by
  rw [ensureItemExists, if_pos h]

theorem ensure_create {db : DB} {item : String} (h : itemExists db item = false) :
    ensureItemExists db item =
      ⟨db.tallies ++ [(item, 0)], db.aliases ++ [(item, db.nextGroup)],
        db.groups ++ [db.nextGroup], db.nextGroup + 1⟩ := by
  rw [ensureItemExists, if_neg (by simp [h])]

theorem itemExists_ensure_self (db : DB) (item : String) :
    itemExists (ensureItemExists db item) item = true := by
  cases h : itemExists db item
  · rw [ensure_create h]
    have hnone : db.tallies.lookup item = none := by
      cases hl : db.tallies.lookup item
      · rfl
      · rw [itemExists, hl] at h
        simp at h
    rw [itemExists, lookup_append_of_none _ _ hnone, lookup_cons_self]
    rfl
  · rw [ensure_noop h]
    exact h

theorem itemExists_ensure_mono {db : DB} {x : String} (item : String)
    (h : itemExists db x = true) :
    itemExists (ensureItemExists db item) x = true := by
  cases he : itemExists db item
  · rw [ensure_create he]
    obtain ⟨v, hv⟩ := Option.isSome_iff_exists.mp h
    rw [itemExists, lookup_append_of_some _ hv]
    rfl
  · rw [ensure_noop he]
    exact h

theorem getGroupID_ensure_ne {db : DB} {x : String} (item : String) (hne : x ≠ item) :
    getGroupID (ensureItemExists db item) x = getGroupID db x := by
  cases he : itemExists db item
  · rw [ensure_create he, getGroupID, getGroupID]
    cases hl : db.aliases.lookup x
    · rw [lookup_append_of_none _ _ hl, lookup_cons_ne _ _ hne]
      rfl
    · rw [lookup_append_of_some _ hl]
  · rw [ensure_noop he]

theorem ensure_tallies_lookup_mono {db : DB} {x : String} (item : String) {v : Int}
    (h : db.tallies.lookup x = some v) :
    (ensureItemExists db item).tallies.lookup x = some v := by
  cases he : itemExists db item
  · rw [ensure_create he]
    exact lookup_append_of_some _ h
  · rw [ensure_noop he]
    exact h

theorem inv_ensure {db : DB} (h : Invariant db) (item : String) :
    Invariant (ensureItemExists db item) := by
  cases he : itemExists db item
  · rw [ensure_create he]
    have hnone : db.tallies.lookup item = none := by
      cases hl : db.tallies.lookup item
      · rfl
      · rw [itemExists, hl] at he
        simp at he
    have hni : item ∉ db.aliases.map Prod.fst := by
      rw [← h.keys_eq]
      exact (lookup_eq_none_iff _ _).mp hnone
    refine ⟨?_, ?_, ?_, ?_⟩
    · simp [h.keys_eq]
    · simp [List.nodup_append, h.nodup, hni]
    · intro p hp
      have hp' : p ∈ db.aliases ++ [(item, db.nextGroup)] := hp
      rcases List.mem_append.mp hp' with h1 | h1
      · have hb := h.bounds p h1
        refine ⟨hb.1, ?_⟩
        show p.2 < db.nextGroup + 1
        omega
      · rcases List.mem_singleton.mp h1 with rfl
        refine ⟨h.next_pos, ?_⟩
        show db.nextGroup < db.nextGroup + 1
        omega
    · show 1 ≤ db.nextGroup + 1
      omega
  · rw [ensure_noop he]
    exact h

theorem inv_update {db : DB} (h : Invariant db) (item : String) (s : Int) :
    Invariant (updateScore db item s) := by
  refine ⟨?_, h.nodup, h.bounds, h.next_pos⟩
  rw [updateScore]
  rw [map_fst_keep _ _ (fun p => by by_cases hp : p.1 = item <;> simp [hp])]
  exact h.keys_eq

/-! ## Invariant preservation for `linkItems`, `unlinkItems` and the ops -/

theorem inv_link {db : DB} (h : Invariant db) (a b : String) :
    Invariant (linkItems db a b) := by
  simp only [linkItems]
  set dbe := ensureItemExists (ensureItemExists db a) b with hdbe
  have hinvE : Invariant dbe := inv_ensure (inv_ensure h a) b
  have hexa : itemExists dbe a = true := itemExists_ensure_mono b (itemExists_ensure_self db a)
  by_cases hg : getGroupID dbe a = getGroupID dbe b
  · rw [if_neg (not_not_intro hg)]
    exact hinvE
  · rw [if_pos hg]
    have hga := aliases_lookup_of_exists hinvE hexa
    refine ⟨?_, ?_, ?_, hinvE.next_pos⟩
    · show dbe.tallies.map Prod.fst
        = (dbe.aliases.map fun p =>
            if p.2 = getGroupID dbe b then (p.1, getGroupID dbe a) else p).map Prod.fst
      rw [map_fst_keep _ _ (fun p => by by_cases hp : p.2 = getGroupID dbe b <;> simp [hp])]
      exact hinvE.keys_eq
    · show ((dbe.aliases.map fun p =>
          if p.2 = getGroupID dbe b then (p.1, getGroupID dbe a) else p).map Prod.fst).Nodup
      rw [map_fst_keep _ _ (fun p => by by_cases hp : p.2 = getGroupID dbe b <;> simp [hp])]
      exact hinvE.nodup
    · intro p hp
      obtain ⟨q, hq, hfq⟩ := List.mem_map.mp hp
      by_cases hqv : q.2 = getGroupID dbe b
      · rw [if_pos hqv] at hfq
        subst hfq
        exact ⟨hga.2.1, hga.2.2⟩
      · rw [if_neg hqv] at hfq
        subst hfq
        exact hinvE.bounds q hq

theorem inv_unlink {db : DB} (h : Invariant db) (a b : String) :
    Invariant (unlinkItems db a b) := by
  simp only [unlinkItems]
  set dbe := ensureItemExists (ensureItemExists db a) b with hdbe
  have hinvE : Invariant dbe := inv_ensure (inv_ensure h a) b
  by_cases hg : getGroupID dbe a = getGroupID dbe b
  · rw [if_pos hg]
    refine ⟨?_, ?_, ?_, ?_⟩
    · show dbe.tallies.map Prod.fst
        = (dbe.aliases.map fun p => if p.1 = b then (p.1, dbe.nextGroup) else p).map Prod.fst
      rw [map_fst_keep _ _ (fun p => by by_cases hp : p.1 = b <;> simp [hp])]
      exact hinvE.keys_eq
    · show ((dbe.aliases.map fun p =>
          if p.1 = b then (p.1, dbe.nextGroup) else p).map Prod.fst).Nodup
      rw [map_fst_keep _ _ (fun p => by by_cases hp : p.1 = b <;> simp [hp])]
      exact hinvE.nodup
    · intro p hp
      obtain ⟨q, hq, hfq⟩ := List.mem_map.mp hp
      have hb := hinvE.bounds q hq
      have hnp := hinvE.next_pos
      by_cases hqv : q.1 = b
      · rw [if_pos hqv] at hfq
        subst hfq
        refine ⟨hnp, ?_⟩
        show dbe.nextGroup < dbe.nextGroup + 1
        omega
      · rw [if_neg hqv] at hfq
        subst hfq
        refine ⟨hb.1, ?_⟩
        show q.2 < dbe.nextGroup + 1
        omega
    · show 1 ≤ dbe.nextGroup + 1
      omega
  · rw [if_neg hg]
    exact hinvE

theorem inv_applyDelta {db : DB} (h : Invariant db) (item : String) (inc : Bool) :
    Invariant (applyDelta db item inc) :=
  inv_update (inv_ensure h item) _ _

theorem inv_applyOp {db : DB} (h : Invariant db) (op : Op) : Invariant (applyOp db op) := by
  cases op with
  | ensure i => exact inv_ensure h i
  | delta i inc => exact inv_applyDelta h i inc
  | link a b => exact inv_link h a b
  | unlink a b => exact inv_unlink h a b
  | total _ => exact h
  | listLinked _ => exact h

theorem inv_runOps {db : DB} (h : Invariant db) (ops : List Op) :
    Invariant (runOps db ops) := by
  induction ops generalizing db with
  | nil => exact h
  | cons op rest ih => exact ih (inv_applyOp h op)

theorem inv_empty : Invariant DB.empty := by decide

/-! ## Structural lemmas about `linkItems` and `unlinkItems` -/

theorem link_tallies (db : DB) (a b : String) :
    (linkItems db a b).tallies = (ensureItemExists (ensureItemExists db a) b).tallies := by
  simp only [linkItems]
  split <;> rfl

theorem unlink_tallies (db : DB) (a b : String) :
    (unlinkItems db a b).tallies = (ensureItemExists (ensureItemExists db a) b).tallies := by
  simp only [unlinkItems]
  split <;> rfl

theorem itemExists_link {db : DB} {a b x : String}
    (h : itemExists (ensureItemExists (ensureItemExists db a) b) x = true) :
    itemExists (linkItems db a b) x = true := by
  show ((linkItems db a b).tallies.lookup x).isSome = true
  rw [link_tallies]
  exact h

theorem itemExists_link_first (db : DB) (a b : String) :
    itemExists (linkItems db a b) a = true :=
  itemExists_link (itemExists_ensure_mono b (itemExists_ensure_self db a))

theorem itemExists_link_second (db : DB) (a b : String) :
    itemExists (linkItems db a b) b = true :=
  itemExists_link (itemExists_ensure_self _ b)

theorem itemExists_link_mono {db : DB} (a b : String) {x : String}
    (hx : itemExists db x = true) :
    itemExists (linkItems db a b) x = true :=
  itemExists_link (itemExists_ensure_mono b (itemExists_ensure_mono a hx))

theorem getGroupID_ne_next {db : DB} (hinv : Invariant db) (x : String) :
    getGroupID db x ≠ db.nextGroup := by
  cases hl : db.aliases.lookup x with
  | none =>
    rw [getGroupID, hl]
    have := hinv.next_pos
    simp only [Option.getD_none]
    omega
  | some g =>
    rw [getGroupID, hl]
    have := (hinv.bounds _ (lookup_mem hl)).2
    simp only [Option.getD_some]
    omega

theorem link_eq_of_exists {db : DB} {a b : String}
    (ha : itemExists db a = true) (hb : itemExists db b = true) :
    linkItems db a b =
      if getGroupID db a ≠ getGroupID db b then
        { db with
            aliases := db.aliases.map fun p =>
              if p.2 = getGroupID db b then (p.1, getGroupID db a) else p
            groups := db.groups.filter fun g => g ≠ getGroupID db b }
      else db := by
  simp only [linkItems, ensure_noop ha, ensure_noop hb]

theorem unlink_eq_of_exists {db : DB} {a b : String}
    (ha : itemExists db a = true) (hb : itemExists db b = true) :
    unlinkItems db a b =
      if getGroupID db a = getGroupID db b then
        { db with
            aliases := db.aliases.map fun p =>
              if p.1 = b then (p.1, db.nextGroup) else p
            groups := db.groups ++ [db.nextGroup]
            nextGroup := db.nextGroup + 1 }
      else db := by
  simp only [unlinkItems, ensure_noop ha, ensure_noop hb]

theorem getGroupID_link {db : DB} (hinv : Invariant db) (a b x : String)
    (hx : itemExists (ensureItemExists (ensureItemExists db a) b) x = true) :
    getGroupID (linkItems db a b) x =
      if getGroupID (ensureItemExists (ensureItemExists db a) b) x
          = getGroupID (ensureItemExists (ensureItemExists db a) b) b
      then getGroupID (ensureItemExists (ensureItemExists db a) b) a
      else getGroupID (ensureItemExists (ensureItemExists db a) b) x := by
  simp only [linkItems]
  set dbe := ensureItemExists (ensureItemExists db a) b with hdbe
  have hinvE : Invariant dbe := inv_ensure (inv_ensure hinv a) b
  obtain ⟨hlx, -, -⟩ := aliases_lookup_of_exists hinvE hx
  by_cases hg : getGroupID dbe a = getGroupID dbe b
  · rw [if_neg (not_not_intro hg)]
    by_cases hxg : getGroupID dbe x = getGroupID dbe b
    · rw [if_pos hxg, hg, hxg]
    · rw [if_neg hxg]
  · rw [if_pos hg]
    show ((dbe.aliases.map fun p =>
        if p.2 = getGroupID dbe b then (p.1, getGroupID dbe a) else p).lookup x).getD 0 = _
    rw [lookup_map_repoint, hlx]
    by_cases hxg : getGroupID dbe x = getGroupID dbe b
    · rw [if_pos hxg]
      simp [hxg]
    · rw [if_neg hxg]
      simp [hxg]

theorem link_shares {db : DB} (hinv : Invariant db) (a b : String) :
    getGroupID (linkItems db a b) a = getGroupID (linkItems db a b) b := by
  have hexa : itemExists (ensureItemExists (ensureItemExists db a) b) a = true :=
    itemExists_ensure_mono b (itemExists_ensure_self db a)
  have hexb : itemExists (ensureItemExists (ensureItemExists db a) b) b = true :=
    itemExists_ensure_self _ b
  rw [getGroupID_link hinv a b a hexa, getGroupID_link hinv a b b hexb, if_pos rfl]
  split <;> rfl

theorem link_idem {db : DB} (hinv : Invariant db) (a b : String) :
    linkItems (linkItems db a b) a b = linkItems db a b := by
  have hexa := itemExists_link_first db a b
  have hexb := itemExists_link_second db a b
  have hsh := link_shares hinv a b
  rw [link_eq_of_exists hexa hexb, if_neg (not_not_intro hsh)]

theorem link_link_shares {db : DB} (hinv : Invariant db) (a b c : String) :
    getGroupID (linkItems (linkItems db a b) b c) a
      = getGroupID (linkItems (linkItems db a b) b c) b := by
  set db1 := linkItems db a b with hdb1
  have hinv1 : Invariant db1 := inv_link hinv a b
  have hexa : itemExists db1 a = true := itemExists_link_first db a b
  have hexb : itemExists db1 b = true := itemExists_link_second db a b
  have hsh : getGroupID db1 a = getGroupID db1 b := link_shares hinv a b
  have e1 : ensureItemExists db1 b = db1 := ensure_noop hexb
  have hexa2 : itemExists (ensureItemExists db1 c) a = true := itemExists_ensure_mono c hexa
  have hexb2 : itemExists (ensureItemExists db1 c) b = true := itemExists_ensure_mono c hexb
  have hga : getGroupID (ensureItemExists db1 c) a = getGroupID db1 a := by
    by_cases hac : a = c
    · subst hac
      rw [ensure_noop hexa]
    · exact getGroupID_ensure_ne c hac
  have hgb : getGroupID (ensureItemExists db1 c) b = getGroupID db1 b := by
    by_cases hbc : b = c
    · subst hbc
      rw [ensure_noop hexb]
    · exact getGroupID_ensure_ne c hbc
  have hGa := getGroupID_link hinv1 b c a (by rw [e1]; exact hexa2)
  have hGb := getGroupID_link hinv1 b c b (by rw [e1]; exact hexb2)
  rw [e1] at hGa hGb
  rw [hGa, hGb, hga, hgb, hsh]

theorem getGroupID_unlink_second {db : DB} (hinv : Invariant db) {a b : String}
    (ha : itemExists db a = true) (hb : itemExists db b = true)
    (hg : getGroupID db a = getGroupID db b) :
    getGroupID (unlinkItems db a b) b = db.nextGroup := by
  obtain ⟨hlb, -, -⟩ := aliases_lookup_of_exists hinv hb
  rw [unlink_eq_of_exists ha hb, if_pos hg]
  show ((db.aliases.map fun p =>
      if p.1 = b then (p.1, db.nextGroup) else p).lookup b).getD 0 = db.nextGroup
  rw [lookup_map_setkey, if_pos rfl, hlb]
  rfl

theorem getGroupID_unlink_other {db : DB} {a b : String}
    (ha : itemExists db a = true) (hb : itemExists db b = true)
    {x : String} (hxb : x ≠ b) :
    getGroupID (unlinkItems db a b) x = getGroupID db x := by
  rw [unlink_eq_of_exists ha hb]
  by_cases hg : getGroupID db a = getGroupID db b
  · rw [if_pos hg]
    show ((db.aliases.map fun p =>
        if p.1 = b then (p.1, db.nextGroup) else p).lookup x).getD 0 = getGroupID db x
    rw [lookup_map_setkey, if_neg hxb]
    rfl
  · rw [if_neg hg]

/-- Concrete state used to witness the claims with hypotheses: three items
`a`, `b`, `c` with score 0 sharing group 1 (as after three creations and two
links), AUTOINCREMENT counter at 4. -/
def dbThree : DB :=
  ⟨[("a", 0), ("b", 0), ("c", 0)], [("a", 1), ("b", 1), ("c", 1)], [1], 4⟩

/-! ## Claim theorems -/

/-- C1: for distinct existing items `a`, `b` sharing a group, `unlinkItems`
allocates a brand-new group identifier (one that no item currently has) and
moves only `b` into it, every other item (including `a`) keeping its group;
on a three-member group, `c` stays with `a` and apart from `b`; and if
`groupOf(a) ≠ groupOf(b)`, `unlinkItems` changes nothing. -/
theorem unlink_moves_only_second (db : DB) (a b : String) (hinv : Invariant db)
    (ha : itemExists db a = true) (hb : itemExists db b = true) (hab : a ≠ b) :
    (getGroupID db a = getGroupID db b →
      (∀ x, getGroupID db x ≠ db.nextGroup) ∧
      getGroupID (unlinkItems db a b) b = db.nextGroup ∧
      (∀ x, x ≠ b → getGroupID (unlinkItems db a b) x = getGroupID db x) ∧
      (∀ c, c ≠ b → getGroupID db c = getGroupID db a →
        getGroupID (unlinkItems db a b) c = getGroupID (unlinkItems db a b) a ∧
        getGroupID (unlinkItems db a b) c ≠ getGroupID (unlinkItems db a b) b)) ∧
    (getGroupID db a ≠ getGroupID db b → unlinkItems db a b = db) := by
  constructor
  · intro hg
    have hUb := getGroupID_unlink_second hinv ha hb hg
    have hUx := fun x hx => getGroupID_unlink_other ha hb (x := x) hx
    refine ⟨fun x => getGroupID_ne_next hinv x, hUb, hUx, ?_⟩
    intro c hcb hca
    constructor
    · rw [hUx c hcb, hUx a hab, hca]
    · rw [hUx c hcb, hUb]
      exact getGroupID_ne_next hinv c
  · intro hg
    rw [unlink_eq_of_exists ha hb, if_neg hg]

theorem unlink_moves_only_second_witness :
    getGroupID (unlinkItems dbThree "a" "b") "c"
      = getGroupID (unlinkItems dbThree "a" "b") "a" ∧
    getGroupID (unlinkItems dbThree "a" "b") "c"
      ≠ getGroupID (unlinkItems dbThree "a" "b") "b" :=
  ((unlink_moves_only_second dbThree "a" "b" (by decide) (by decide) (by decide)
    (by decide)).1 (by decide)).2.2.2 "c" (by decide) (by decide)

/-- C9: `unlinkItems x x` always takes the split branch (a group equals
itself), so `x` is moved into a brand-new group, every other item keeps its
group, and `x` ends up in no other item's group — separated from all its
former group-mates, and with a fresh id even when it was a singleton. -/
theorem unlink_self_isolates (db : DB) (x : String) (hinv : Invariant db)
    (hx : itemExists db x = true) :
    getGroupID (unlinkItems db x x) x = db.nextGroup ∧
    (∀ y, y ≠ x → getGroupID (unlinkItems db x x) y = getGroupID db y) ∧
    (∀ y, y ≠ x → getGroupID (unlinkItems db x x) y ≠ getGroupID (unlinkItems db x x) x) := by
  have hUb := getGroupID_unlink_second hinv hx hx rfl
  have hUx := fun y hy => getGroupID_unlink_other hx hx (x := y) hy
  refine ⟨hUb, hUx, ?_⟩
  intro y hy
  rw [hUx y hy, hUb]
  exact getGroupID_ne_next hinv y

theorem unlink_self_isolates_witness :
    getGroupID (unlinkItems dbThree "b" "b") "b" = 4 ∧
    getGroupID (unlinkItems dbThree "b" "b") "a" ≠ getGroupID (unlinkItems dbThree "b" "b") "b" :=
  ⟨(unlink_self_isolates dbThree "b" (by decide) (by decide)).1,
   (unlink_self_isolates dbThree "b" (by decide) (by decide)).2.2 "a" (by decide)⟩

/-- C6: after `linkItems a b` followed by `unlinkItems a b` (distinct items),
the two items are in different groups, and the unlink leaves the whole score
store untouched (it writes only `aliases` and `groups`). -/
theorem link_unlink_separates (db : DB) (a b : String) (hinv : Invariant db)
    (hab : a ≠ b) :
    getGroupID (unlinkItems (linkItems db a b) a b) a
      ≠ getGroupID (unlinkItems (linkItems db a b) a b) b ∧
    (unlinkItems (linkItems db a b) a b).tallies = (linkItems db a b).tallies := by
  have hinv1 : Invariant (linkItems db a b) := inv_link hinv a b
  have hexa : itemExists (linkItems db a b) a = true := itemExists_link_first db a b
  have hexb : itemExists (linkItems db a b) b = true := itemExists_link_second db a b
  have hsh : getGroupID (linkItems db a b) a = getGroupID (linkItems db a b) b :=
    link_shares hinv a b
  constructor
  · rw [getGroupID_unlink_other hexa hexb hab, getGroupID_unlink_second hinv1 hexa hexb hsh]
    exact getGroupID_ne_next hinv1 a
  · rw [unlink_tallies, ensure_noop hexa, ensure_noop hexb]

theorem link_unlink_separates_witness :
    getGroupID (unlinkItems (linkItems DB.empty "x" "y") "x" "y") "x"
      ≠ getGroupID (unlinkItems (linkItems DB.empty "x" "y") "x" "y") "y" ∧
    (unlinkItems (linkItems DB.empty "x" "y") "x" "y").tallies
      = (linkItems DB.empty "x" "y").tallies :=
  link_unlink_separates DB.empty "x" "y" (by decide) (by decide)

/-- C2: `linkItems` ensures both items exist; when the groups of two existing
items differ, every item of `b`'s group is re-pointed to `a`'s group id (the
survivor is always `a`'s id) and `b`'s old id no longer occurs; when the
groups are equal it changes nothing; it is idempotent; and after
`link(a,b)` then `link(b,c)` all of `a`, `b`, `c` share one group. -/
theorem link_merges_into_first (db : DB) (a b : String) (hinv : Invariant db) :
    (itemExists (linkItems db a b) a = true ∧ itemExists (linkItems db a b) b = true) ∧
    (itemExists db a = true → itemExists db b = true →
      getGroupID db a ≠ getGroupID db b →
      (∀ x, getGroupID db x = getGroupID db b →
        getGroupID (linkItems db a b) x = getGroupID db a) ∧
      (∀ x, getGroupID db x ≠ getGroupID db b →
        getGroupID (linkItems db a b) x = getGroupID db x) ∧
      (∀ x, getGroupID (linkItems db a b) x ≠ getGroupID db b)) ∧
    (itemExists db a = true → itemExists db b = true →
      getGroupID db a = getGroupID db b → linkItems db a b = db) ∧
    linkItems (linkItems db a b) a b = linkItems db a b ∧
    (∀ c, getGroupID (linkItems (linkItems db a b) b c) a
        = getGroupID (linkItems (linkItems db a b) b c) b ∧
      getGroupID (linkItems (linkItems db a b) b c) b
        = getGroupID (linkItems (linkItems db a b) b c) c) := by
  refine ⟨⟨itemExists_link_first db a b, itemExists_link_second db a b⟩, ?_, ?_,
    link_idem hinv a b,
    fun c => ⟨link_link_shares hinv a b c, link_shares (inv_link hinv a b) b c⟩⟩
  · intro ha hb hg
    have hbpos : 1 ≤ getGroupID db b := (aliases_lookup_of_exists hinv hb).2.1
    have hcompute : ∀ x, getGroupID (linkItems db a b) x
        = ((db.aliases.lookup x).map fun g =>
            if g = getGroupID db b then getGroupID db a else g).getD 0 := by
      intro x
      rw [link_eq_of_exists ha hb, if_pos hg]
      show ((db.aliases.map fun p =>
          if p.2 = getGroupID db b then (p.1, getGroupID db a) else p).lookup x).getD 0 = _
      rw [lookup_map_repoint]
    refine ⟨?_, ?_, ?_⟩
    · intro x hx
      rw [hcompute x]
      cases hl : db.aliases.lookup x with
      | none =>
        rw [getGroupID, hl] at hx
        simp only [Option.getD_none] at hx
        omega
      | some gx =>
        rw [getGroupID, hl] at hx
        simp only [Option.getD_some] at hx
        simp [hx]
    · intro x hx
      rw [hcompute x]
      cases hl : db.aliases.lookup x with
      | none =>
        have hx0 : getGroupID db x = 0 := by rw [getGroupID, hl]; rfl
        rw [hx0]
        rfl
      | some gx =>
        have hxg : getGroupID db x = gx := by rw [getGroupID, hl]; rfl
        rw [hxg] at hx ⊢
        simp [hx]
    · intro x
      rw [hcompute x]
      cases hl : db.aliases.lookup x with
      | none =>
        simp only [Option.map_none', Option.getD_none]
        omega
      | some gx =>
        by_cases hgx : gx = getGroupID db b
        · simpa [hgx] using hg
        · simp [hgx]
  · intro ha hb hg
    rw [link_eq_of_exists ha hb, if_neg (not_not_intro hg)]

/-- Concrete state used to witness C2: items `a`, `b` share group 1, item
`c` sits alone in group 3, counter at 4. -/
def dbSplit : DB :=
  ⟨[("a", 0), ("b", 0), ("c", 0)], [("a", 1), ("b", 1), ("c", 3)], [1, 3], 4⟩

theorem link_merges_into_first_witness :
    getGroupID (linkItems dbSplit "a" "c") "c" = getGroupID dbSplit "a" :=
  ((link_merges_into_first dbSplit "a" "c" (by decide)).2.1 (by decide) (by decide)
    (by decide)).1 "c" (by decide)

/-! ## The aggregate-score query -/

theorem sum_join (g : Nat) (T : List (String × Int)) (AL : List (String × Nat)) :
    ∀ (t : List (String × Int)) (al : List (String × Nat)),
      t.map Prod.fst = al.map Prod.fst →
      (∀ p ∈ t, T.lookup p.1 = some p.2) →
      (∀ p ∈ al, AL.lookup p.1 = some p.2) →
      ((t.filter fun p => AL.lookup p.1 == some g).map Prod.snd).sum
        = ((al.filter fun p => p.2 == g).map fun q => (T.lookup q.1).getD 0).sum := by
  intro t
  induction t with
  | nil =>
    intro al hk _ _
    have : al = [] := by
      cases al with
      | nil => rfl
      | cons q al' => simp at hk
    subst this
    rfl
  | cons p t ih =>
    intro al hk hT hAL
    cases al with
    | nil => simp at hk
    | cons q al' =>
      obtain ⟨x, s⟩ := p
      obtain ⟨y, gy⟩ := q
      simp only [List.map_cons, List.cons.injEq] at hk
      obtain ⟨rfl, hk'⟩ := hk
      have hTq : T.lookup x = some s := hT (x, s) (List.mem_cons_self _ _)
      have hALq : AL.lookup x = some gy := hAL (x, gy) (List.mem_cons_self _ _)
      have hT' : ∀ p ∈ t, T.lookup p.1 = some p.2 :=
        fun p hp => hT p (List.mem_cons_of_mem _ hp)
      have hAL' : ∀ p ∈ al', AL.lookup p.1 = some p.2 :=
        fun p hp => hAL p (List.mem_cons_of_mem _ hp)
      have hrec := ih al' hk' hT' hAL'
      by_cases hgy : gy = g
      · rw [List.filter_cons, List.filter_cons]
        have hc1 : (AL.lookup (x, s).1 == some g) = true := by
          simp [hALq, hgy]
        have hc2 : ((x, gy).2 == g) = true := by
          simp [hgy]
        rw [if_pos hc1, if_pos hc2]
        simp only [List.map_cons, List.sum_cons, hrec, hTq]
        rfl
      · rw [List.filter_cons, List.filter_cons]
        have hc1 : ¬((AL.lookup (x, s).1 == some g) = true) := by
          simp [hALq, hgy]
        have hc2 : ¬(((x, gy).2 == g) = true) := by
          simp [hgy]
        rw [if_neg hc1, if_neg hc2]
        exact hrec

theorem filter_group_singleton (g : Nat) (x : String) :
    ∀ al : List (String × Nat), (al.map Prod.fst).Nodup →
      al.lookup x = some g →
      (∀ p ∈ al, p.2 = g → p.1 = x) →
      al.filter (fun p => p.2 == g) = [(x, g)] := by
  intro al
  induction al with
  | nil =>
    intro _ hl _
    simp at hl
  | cons q al' ih =>
    intro hnd hl hall
    obtain ⟨y, gy⟩ := q
    rw [List.map_cons, List.nodup_cons] at hnd
    by_cases hxy : x = y
    · subst hxy
      rw [lookup_cons_self] at hl
      cases hl
      rw [List.filter_cons, if_pos (by simp)]
      have hnil : al'.filter (fun p => p.2 == g) = [] := by
        rw [List.filter_eq_nil_iff]
        intro p hp
        simp only [beq_iff_eq]
        intro hpg
        have hpx := hall p (List.mem_cons_of_mem _ hp) hpg
        exact absurd (List.mem_map.mpr ⟨p, hp, hpx⟩) hnd.1
      rw [hnil]
    · rw [lookup_cons_ne _ _ hxy] at hl
      have hqne : gy ≠ g := by
        intro hgg
        exact hxy ((hall (y, gy) (List.mem_cons_self _ _) hgg).symm)
      rw [List.filter_cons, if_neg (by simp [hqne])]
      exact ih hnd.2 hl fun p hp => hall p (List.mem_cons_of_mem _ hp)

theorem totalScore_eq_groupSum {db : DB} (hinv : Invariant db) {x : String}
    (hx : itemExists db x = true) :
    getTotalScore db x = groupScoreSum db (getGroupID db x) := by
  obtain ⟨hlx, hpos, -⟩ := aliases_lookup_of_exists hinv hx
  have hg0 : ¬(getGroupID db x = 0) := by omega
  have hndt : (db.tallies.map Prod.fst).Nodup := by
    rw [hinv.keys_eq]
    exact hinv.nodup
  rw [getTotalScore]
  simp only [if_neg hg0]
  rw [groupScoreSum]
  have h := sum_join (getGroupID db x) db.tallies db.aliases db.tallies db.aliases
    hinv.keys_eq
    (fun p hp => lookup_self_of_nodup hndt hp)
    (fun p hp => lookup_self_of_nodup hinv.nodup hp)
  rw [h]
  rfl

/-- C3: `getTotalScore` returns `getScore` (0 for a never-created item) when
the item has no group-mates, and otherwise the sum of the scores of every
item currently mapped to the same group id, including the item itself; and
a never-created item has total 0 and no linked items. -/
theorem totalScore_spec (db : DB) (x : String) (hinv : Invariant db) :
    (itemExists db x = false → getTotalScore db x = 0 ∧ getLinkedItems db x = []) ∧
    (itemExists db x = true → getLinkedItems db x = [] →
      getTotalScore db x = getScore db x) ∧
    (itemExists db x = true →
      getTotalScore db x = groupScoreSum db (getGroupID db x)) := by
  refine ⟨?_, ?_, fun hx => totalScore_eq_groupSum hinv hx⟩
  · intro hx
    have hg0 : getGroupID db x = 0 := (getGroupID_eq_zero_iff hinv x).mpr hx
    have hsc : getScore db x = 0 := by
      cases hl : db.tallies.lookup x with
      | none => rw [getScore, hl]; rfl
      | some v => rw [itemExists, hl] at hx; simp at hx
    constructor
    · simp only [getTotalScore]
      rw [hg0]
      simpa using hsc
    · simp only [getLinkedItems]
      rw [hg0]
      simp
  · intro hx hempty
    obtain ⟨hlx, hpos, -⟩ := aliases_lookup_of_exists hinv hx
    have hg0 : ¬(getGroupID db x = 0) := by omega
    have hall : ∀ p ∈ db.aliases, p.2 = getGroupID db x → p.1 = x := by
      intro p hp hpg
      by_contra hne
      have hmem : p.1 ∈ getLinkedItems db x := by
        simp only [getLinkedItems, if_neg hg0]
        exact List.mem_map.mpr ⟨p, List.mem_filter.mpr ⟨hp, by simp [hpg, hne]⟩, rfl⟩
      rw [hempty] at hmem
      simp at hmem
    rw [totalScore_eq_groupSum hinv hx, groupScoreSum,
      filter_group_singleton _ _ db.aliases hinv.nodup hlx hall]
    simp

theorem totalScore_spec_witness :
    (getTotalScore dbSplit "zzz" = 0 ∧ getLinkedItems dbSplit "zzz" = []) ∧
    getTotalScore dbSplit "c" = getScore dbSplit "c" ∧
    getTotalScore dbSplit "a" = groupScoreSum dbSplit (getGroupID dbSplit "a") :=
  ⟨(totalScore_spec dbSplit "zzz" (by decide)).1 (by decide),
   (totalScore_spec dbSplit "c" (by decide)).2.1 (by decide) (by decide),
   (totalScore_spec dbSplit "a" (by decide)).2.2 (by decide)⟩

/-- C8: an input whose trimmed, lowercased form is `!help` (so `!help` in
any character case) changes no state and produces exactly the static help
text, which lists the four command forms. -/
theorem help_is_pure (db : DB) (msg : String)
    (h : lowerChars (trimChars msg.data) = "!help".data) :
    handleMessage db msg = (db, [helpText]) := by
  simp only [handleMessage]
  rw [if_pos h]

theorem help_is_pure_witness :
    handleMessage dbSplit "!HELP" = (dbSplit, [helpText]) :=
  help_is_pure dbSplit "!HELP" (by decide)

/-- C4: from the empty store, the five-message scenario produces exactly the
five specified responses in order. -/
theorem scenario_five_messages :
    (runMessages DB.empty
      ["alpha++", "beta++", "!link alpha beta", "alpha++", "!total beta"]).2
      = ["alpha: [1]", "beta: [1]", "Linked alpha and beta.",
         "alpha: [2] (linked with: beta)",
         "Total score for group including beta: [3]"] := by
  decide

/-! ## Retired group identifiers (temporal property) -/

theorem runOps_append (db : DB) (l1 l2 : List Op) :
    runOps db (l1 ++ l2) = runOps (runOps db l1) l2 :=
  List.foldl_append _ _ _ _

theorem ensure_retired {db : DB} {g : Nat} (hlt : g < db.nextGroup)
    (hout : ∀ p ∈ db.aliases, p.2 ≠ g) (item : String) :
    g < (ensureItemExists db item).nextGroup ∧
    (∀ p ∈ (ensureItemExists db item).aliases, p.2 ≠ g) ∧
    db.nextGroup ≤ (ensureItemExists db item).nextGroup := by
  cases he : itemExists db item
  · rw [ensure_create he]
    refine ⟨?_, ?_, ?_⟩
    · show g < db.nextGroup + 1
      omega
    · intro p hp
      have hp' : p ∈ db.aliases ++ [(item, db.nextGroup)] := hp
      rcases List.mem_append.mp hp' with h1 | h1
      · exact hout p h1
      · rcases List.mem_singleton.mp h1 with rfl
        show db.nextGroup ≠ g
        omega
    · show db.nextGroup ≤ db.nextGroup + 1
      omega
  · rw [ensure_noop he]
    exact ⟨hlt, hout, le_refl _⟩

theorem link_retired {db : DB} (hinv : Invariant db) {g : Nat} (hlt : g < db.nextGroup)
    (hout : ∀ p ∈ db.aliases, p.2 ≠ g) (a b : String) :
    g < (linkItems db a b).nextGroup ∧
    (∀ p ∈ (linkItems db a b).aliases, p.2 ≠ g) ∧
    db.nextGroup ≤ (linkItems db a b).nextGroup := by
  obtain ⟨h1, h2, h3⟩ := ensure_retired hlt hout a
  obtain ⟨h1', h2', h3'⟩ := ensure_retired h1 h2 b
  simp only [linkItems]
  set dbe := ensureItemExists (ensureItemExists db a) b with hdbe
  have hinvE : Invariant dbe := inv_ensure (inv_ensure hinv a) b
  by_cases hg : getGroupID dbe a = getGroupID dbe b
  · rw [if_neg (not_not_intro hg)]
    exact ⟨h1', h2', le_trans h3 h3'⟩
  · rw [if_pos hg]
    refine ⟨h1', ?_, le_trans h3 h3'⟩
    intro p hp
    obtain ⟨q, hq, hfq⟩ := List.mem_map.mp hp
    by_cases hqv : q.2 = getGroupID dbe b
    · rw [if_pos hqv] at hfq
      subst hfq
      have hexa : itemExists dbe a = true :=
        itemExists_ensure_mono b (itemExists_ensure_self db a)
      obtain ⟨hla, -, -⟩ := aliases_lookup_of_exists hinvE hexa
      show getGroupID dbe a ≠ g
      exact h2' (a, getGroupID dbe a) (lookup_mem hla)
    · rw [if_neg hqv] at hfq
      subst hfq
      exact h2' q hq

theorem unlink_retired {db : DB} {g : Nat} (hlt : g < db.nextGroup)
    (hout : ∀ p ∈ db.aliases, p.2 ≠ g) (a b : String) :
    g < (unlinkItems db a b).nextGroup ∧
    (∀ p ∈ (unlinkItems db a b).aliases, p.2 ≠ g) ∧
    db.nextGroup ≤ (unlinkItems db a b).nextGroup := by
  obtain ⟨h1, h2, h3⟩ := ensure_retired hlt hout a
  obtain ⟨h1', h2', h3'⟩ := ensure_retired h1 h2 b
  simp only [unlinkItems]
  set dbe := ensureItemExists (ensureItemExists db a) b with hdbe
  by_cases hg : getGroupID dbe a = getGroupID dbe b
  · rw [if_pos hg]
    refine ⟨?_, ?_, ?_⟩
    · show g < dbe.nextGroup + 1
      omega
    · intro p hp
      obtain ⟨q, hq, hfq⟩ := List.mem_map.mp hp
      by_cases hqv : q.1 = b
      · rw [if_pos hqv] at hfq
        subst hfq
        show dbe.nextGroup ≠ g
        omega
      · rw [if_neg hqv] at hfq
        subst hfq
        exact h2' q hq
    · show db.nextGroup ≤ dbe.nextGroup + 1
      omega
  · rw [if_neg hg]
    exact ⟨h1', h2', le_trans h3 h3'⟩

theorem op_retired {db : DB} (hinv : Invariant db) {g : Nat} (hlt : g < db.nextGroup)
    (hout : ∀ p ∈ db.aliases, p.2 ≠ g) (op : Op) :
    g < (applyOp db op).nextGroup ∧
    (∀ p ∈ (applyOp db op).aliases, p.2 ≠ g) ∧
    db.nextGroup ≤ (applyOp db op).nextGroup := by
  cases op with
  | ensure i => exact ensure_retired hlt hout i
  | delta i inc =>
    obtain ⟨h1, h2, h3⟩ := ensure_retired hlt hout i
    exact ⟨h1, h2, h3⟩
  | link a b => exact link_retired hinv hlt hout a b
  | unlink a b => exact unlink_retired hlt hout a b
  | total _ => exact ⟨hlt, hout, le_refl _⟩
  | listLinked _ => exact ⟨hlt, hout, le_refl _⟩

theorem runOps_retired {db : DB} (hinv : Invariant db) {g : Nat}
    (hlt : g < db.nextGroup) (hout : ∀ p ∈ db.aliases, p.2 ≠ g) (ops : List Op) :
    g < (runOps db ops).nextGroup ∧
    (∀ p ∈ (runOps db ops).aliases, p.2 ≠ g) ∧
    db.nextGroup ≤ (runOps db ops).nextGroup := by
  induction ops generalizing db with
  | nil => exact ⟨hlt, hout, le_refl _⟩
  | cons op rest ih =>
    obtain ⟨h1, h2, h3⟩ := op_retired hinv hlt hout op
    obtain ⟨h1', h2', h3'⟩ := ih (inv_applyOp hinv op) h1 h2
    exact ⟨h1', h2', le_trans h3 h3'⟩

/-- C5: after any sequence of engine operations from the empty store, the
membership mapping is single-valued over item names (no duplicate keys) and
an item has a score record exactly when it has a group record. -/
theorem partition_invariant (ops : List Op) (x : String) :
    ((runOps DB.empty ops).aliases.map Prod.fst).Nodup ∧
    (((runOps DB.empty ops).tallies.lookup x).isSome = true
      ↔ ((runOps DB.empty ops).aliases.lookup x).isSome = true) := by
  have h := inv_runOps inv_empty ops
  exact ⟨h.nodup, itemExists_iff_aliases h x⟩

/-- C7: a group identifier below the allocation counter that no item
references (a retired id) never reappears in the membership mapping under
any further operations, and the allocation counter never decreases. -/
theorem retired_group_never_reappears (ops1 ops2 : List Op) (g : Nat)
    (hlt : g < (runOps DB.empty ops1).nextGroup)
    (hout : ∀ p ∈ (runOps DB.empty ops1).aliases, p.2 ≠ g) :
    (∀ p ∈ (runOps DB.empty (ops1 ++ ops2)).aliases, p.2 ≠ g) ∧
    (runOps DB.empty ops1).nextGroup ≤ (runOps DB.empty (ops1 ++ ops2)).nextGroup := by
  rw [runOps_append]
  have h := runOps_retired (inv_runOps inv_empty ops1) hlt hout ops2
  exact ⟨h.2.1, h.2.2⟩

theorem retired_group_never_reappears_witness :
    (∀ p ∈ (runOps DB.empty
        ([Op.ensure "a", Op.ensure "b", Op.link "a" "b"] ++ [Op.unlink "a" "b"])).aliases,
      p.2 ≠ 2) ∧
    (runOps DB.empty [Op.ensure "a", Op.ensure "b", Op.link "a" "b"]).nextGroup
      ≤ (runOps DB.empty
          ([Op.ensure "a", Op.ensure "b", Op.link "a" "b"] ++ [Op.unlink "a" "b"])).nextGroup :=
  retired_group_never_reappears [Op.ensure "a", Op.ensure "b", Op.link "a" "b"]
    [Op.unlink "a" "b"] 2 (by decide) (by decide)

/-- C10: every group identifier ever assigned in the membership mapping is
at least 1, so a `getGroupID` result of 0 holds exactly for items that were
never created — the 0-checks in `getTotalScore` and `getLinkedItems` never
misclassify an existing item. -/
theorem group_zero_means_never_created (ops : List Op) (x : String) :
    (∀ p ∈ (runOps DB.empty ops).aliases, 1 ≤ p.2) ∧
    (getGroupID (runOps DB.empty ops) x = 0
      ↔ itemExists (runOps DB.empty ops) x = false) := by
  have h := inv_runOps inv_empty ops
  exact ⟨fun p hp => (h.bounds p hp).1, getGroupID_eq_zero_iff h x⟩
